import Mathlib

/- Shallow embedding of the k-means clustering core of
   k-means-101/K-means-Clustering.ipynb (final redefinitions of cell 22).

   The notebook stores a dataset column-wise: a dataset is a list of
   dimensions, each dimension a list of coordinates, so the i-th input point
   is the i-th entry of every dimension.  A single point (and a centroid) is
   a list of singleton lists, exactly the notebook's odd representation.

   Python floats are idealised as real numbers; the score dict is modelled
   as an association list with Python's upsert semantics; set(membership)
   is modelled by List.dedup (Python set order is unspecified anyway); the
   random stream behind random.choice(range(n)) is a parameter r : N -> N,
   with the drawn index being r i % n.  Exceptions and None returns are
   collapsed into Option.  The unbounded while loop of k_means is embedded
   with a fuel parameter: running out of fuel yields none, which the loop
   lemmas show never happens except by the fuel artifact itself. -/

namespace KMeans

/-- Cluster labels are the notebook's color-name strings; Python's None
    (the initial value of the cluster variable in reassign) is Option.none,
    so a label is an optional string. -/
abbrev Label := Option String

/-- A dataset: list of dimensions, each a list of coordinates. -/
abbrev Data := List (List ℝ)

/-- A single point or centroid: a list of singleton coordinate lists. -/
abbrev Point := List (List ℝ)

/-- The fixed list of eight color labels (the global list co). -/
def co : List String :=
  ["red", "orange", "yellow", "green", "purple", "blue", "black", "brown"]

/-- sys.maxsize on a 64-bit build, used by the notebook both as the initial
    minimum distance in reassign and as the initial last score in k_means. -/
def maxsize : ℝ := 9223372036854775807

/-- Python list comprehension over indices where the body may raise:
    first failure aborts with none. -/
def optMap (f : ℕ → Option String) : List ℕ → Option (List Label)
  | [] => some []
  | i :: rest =>
    match f i with
    | none => none
    | some s => (optMap f rest).map fun t => (some s : Label) :: t

/-- guess_clusters x n_clusters: a random label co[random.choice(range(n_clusters))]
    per point.  Returns none when x has no points (the Python function falls
    through its for loop and returns None), when n_clusters = 0
    (random.choice of an empty range raises), or when a drawn index falls
    outside co (IndexError).  The draw for point i is r i % n_clusters, which
    ranges over exactly the values random.choice(range(n_clusters)) can take. -/
def guess_clusters (x : Data) (n_clusters : ℕ) (r : ℕ → ℕ) : Option (List Label) :=
  if x.headI.length = 0 then none
  else if n_clusters = 0 then none
  else optMap (fun i => co.get? (r i % n_clusters)) (List.range x.headI.length)

/-- centroid x = [[sum(col)/float(len(x[0]))] for col in x]. -/
noncomputable def centroid (x : Data) : Point :=
  x.map fun col => [col.sum / (x.headI.length : ℝ)]

/-- select_members x membership cluster keeps, dimension-wise, the
    coordinates of the points labelled with the given cluster. -/
def select_members (x : Data) (membership : List Label) (cluster : Label) : Data :=
  x.map fun dim =>
    ((dim.zip membership).filter fun p => decide (p.2 = cluster)).map Prod.fst

/-- distance p1 p2 = sqrt(sum((i[0]-j[0])**2 for i,j in zip(p1,p2))).
    Note zip silently truncates to the shorter argument. -/
noncomputable def distance (p1 p2 : Point) : ℝ :=
  Real.sqrt (((p1.zip p2).map fun ij => (ij.1.headI - ij.2.headI) ^ 2).sum)

/-- One step of the inner loop of reassign over the centroid mapping:
    replace the running (min_d, cluster) only on a strictly smaller distance. -/
noncomputable def assignStep (pt : Point) (acc : ℝ × Label) (cv : Label × Point) : ℝ × Label :=
  if distance cv.2 pt < acc.1 then (distance cv.2 pt, cv.1) else acc

/-- The inner loop of reassign for one point: min_d starts at sys.maxsize and
    cluster at None, then every (label, centroid) pair is tried in traversal
    order of the mapping. -/
noncomputable def assignPoint (pt : Point) (centroids : List (Label × Point)) : ℝ × Label :=
  centroids.foldl (assignStep pt) (maxsize, none)

/-- scores[cluster] = min_d + scores.get(cluster, 0) with Python dict
    semantics: an existing key keeps its position, a new key is appended. -/
noncomputable def scoreAdd : List (Label × ℝ) → Label → ℝ → List (Label × ℝ)
  | [], k, v => [(k, v)]
  | (k', v') :: rest, k, v =>
    if k' = k then (k', v + v') :: rest else (k', v') :: scoreAdd rest k v

/-- The idx-th point of the dataset, [[t[idx]] for t in x] (0 as the junk
    value of an out-of-range index). -/
noncomputable def pointAt (x : Data) (idx : ℕ) : Point :=
  x.map fun t => [t.getD idx 0]

/-- One iteration of the outer loop of reassign: assign point idx and add its
    minimum distance to the score of its cluster. -/
noncomputable def reassignStep (x : Data) (centroids : List (Label × Point))
    (acc : List Label × List (Label × ℝ)) (idx : ℕ) : List Label × List (Label × ℝ) :=
  let md := assignPoint (pointAt x idx) centroids
  (acc.1 ++ [md.2], scoreAdd acc.2 md.2 md.1)

/-- reassign x centroids: new membership plus the total score
    sum(scores.values())/float(len(x[0])). -/
noncomputable def reassign (x : Data) (centroids : List (Label × Point)) :
    List Label × ℝ :=
  let res := (List.range x.headI.length).foldl (reassignStep x centroids) ([], [])
  (res.1, ((res.2.map Prod.snd).sum) / (x.headI.length : ℝ))

/-- get_centroids x membership = {i: centroid(select_members(x, membership, i))
    for i in set(membership)}, as an association list keyed by the distinct
    labels of the membership. -/
noncomputable def get_centroids (x : Data) (membership : List Label) :
    List (Label × Point) :=
  membership.dedup.map fun i => (i, centroid (select_members x membership i))

/-- The loop state of k_means: current membership, last computed centroid
    mapping c, current score and last score. -/
structure KState where
  membership : List Label
  c : List (Label × Point)
  score : ℝ
  last_score : ℝ

/-- The state of k_means just before its while loop: score = 0.0,
    last_score = sys.maxsize, and no centroid mapping computed yet. -/
def kmInit (membership : List Label) : KState :=
  ⟨membership, [], 0, maxsize⟩

/-- The body of the while loop of k_means: recompute centroids from the
    current membership, reassign, and remember the previous score. -/
noncomputable def kmStep (data : Data) (s : KState) : KState :=
  let c := get_centroids data s.membership
  let ms := reassign data c
  ⟨ms.1, c, ms.2, s.score⟩

/-- The while loop of k_means: exit as soon as |last_score - score| <= 1e-7,
    otherwise run another kmStep.  The fuel argument is an artifact of the
    embedding of the unbounded Python loop; none means the fuel ran out. -/
noncomputable def kmLoop (data : Data) : ℕ → KState → Option KState
  | 0, _ => none
  | fuel + 1, s =>
    if |s.last_score - s.score| ≤ 1e-7 then some s
    else kmLoop data fuel (kmStep data s)

/-- k_means data k r fuel: random initial membership, then the loop; the
    result is (membership, c, score).  none models a Python exception or a
    None membership (or exhausted fuel, an embedding artifact). -/
noncomputable def k_means (data : Data) (k : ℕ) (r : ℕ → ℕ) (fuel : ℕ) :
    Option (List Label × List (Label × Point) × ℝ) :=
  match guess_clusters data k r with
  | none => none
  | some membership =>
    (kmLoop data fuel (kmInit membership)).map fun s => (s.membership, s.c, s.score)

/-- The running minimum that reassign computes for one point: the minimum of
    the distances to the centroids of the mapping, seeded at sys.maxsize. -/
noncomputable def minDistCapped (pt : Point) (centroids : List (Label × Point)) : ℝ :=
  centroids.foldl (fun a cv => min a (distance cv.2 pt)) maxsize

/-- Distance between two one-dimensional points is the absolute difference. -/
theorem distance_single (a b : ℝ) : distance [[a]] [[b]] = |a - b| := by
  simp [distance, Real.sqrt_sq_eq_abs]

/-- Adding v to the score of a cluster raises the sum of all scores by v. -/
theorem scoreAdd_snd_sum (s : List (Label × ℝ)) (k : Label) (v : ℝ) :
    ((scoreAdd s k v).map Prod.snd).sum = (s.map Prod.snd).sum + v := by
  induction s with
  | nil => simp [scoreAdd]
  | cons hd tl ih =>
    obtain ⟨k', v'⟩ := hd
    by_cases h : k' = k
    · simp only [scoreAdd, if_pos h, List.map_cons, List.sum_cons]
      ring
    · simp only [scoreAdd, if_neg h, List.map_cons, List.sum_cons, ih]
      ring

/-- The outer fold of reassign appends one label per index and accumulates
    each index's minimum distance into the total of the score values. -/
theorem reassign_foldl (x : Data) (c : List (Label × Point)) (idxs : List ℕ)
    (acc : List Label × List (Label × ℝ)) :
    (idxs.foldl (reassignStep x c) acc).1
        = acc.1 ++ idxs.map (fun i => (assignPoint (pointAt x i) c).2)
    ∧ ((idxs.foldl (reassignStep x c) acc).2.map Prod.snd).sum
        = (acc.2.map Prod.snd).sum
            + (idxs.map (fun i => (assignPoint (pointAt x i) c).1)).sum := by
  induction idxs generalizing acc with
  | nil => simp
  | cons hd tl ih =>
    rw [List.foldl_cons]
    rcases ih (reassignStep x c acc hd) with ⟨h1, h2⟩
    constructor
    · rw [h1]
      simp [reassignStep]
    · rw [h2]
      simp [reassignStep, scoreAdd_snd_sum]
      ring

/-- The first component of the inner fold of reassign is the running minimum
    of the distances, whatever the starting accumulator. -/
theorem assignFold_fst (pt : Point) (cents : List (Label × Point)) (m : ℝ) (l : Label) :
    (cents.foldl (assignStep pt) (m, l)).1
      = cents.foldl (fun a cv => min a (distance cv.2 pt)) m := by
  induction cents generalizing m l with
  | nil => rfl
  | cons hd tl ih =>
    rw [List.foldl_cons, List.foldl_cons]
    by_cases h : distance hd.2 pt < m
    · rw [show assignStep pt (m, l) hd = (distance hd.2 pt, hd.1) by
        simp [assignStep, h]]
      rw [min_eq_right h.le]
      exact ih _ _
    · rw [show assignStep pt (m, l) hd = (m, l) by simp [assignStep, h]]
      rw [min_eq_left (not_lt.mp h)]
      exact ih _ _

/-- The minimum distance reassign records for a point is the capped minimum. -/
theorem assignPoint_fst (pt : Point) (cents : List (Label × Point)) :
    (assignPoint pt cents).1 = minDistCapped pt cents :=
  assignFold_fst pt cents maxsize none

/-- The inner fold of reassign keeps its accumulator when no centroid is
    strictly closer than the accumulated minimum. -/
theorem assignFold_keep (pt : Point) (cents : List (Label × Point)) (m : ℝ) (l : Label)
    (h : ∀ cv ∈ cents, m ≤ distance cv.2 pt) :
    cents.foldl (assignStep pt) (m, l) = (m, l) := by
  induction cents with
  | nil => rfl
  | cons hd tl ih =>
    rw [List.foldl_cons]
    rw [show assignStep pt (m, l) hd = (m, l) by
      simp [assignStep, not_lt.mpr (h hd (List.mem_cons_self hd tl))]]
    exact ih fun cv hcv => h cv (List.mem_cons_of_mem hd hcv)

/-- The inner fold of reassign selects the first position attaining the
    minimum: the chosen label belongs to a position whose distance equals the
    final minimum, every earlier position is strictly farther, and the final
    minimum strictly improves on the seed. -/
theorem assignFold_first_min (pt : Point) (cents : List (Label × Point)) (m : ℝ) (l : Label)
    (h : ∃ cv ∈ cents, distance cv.2 pt < m) :
    ∃ i, ∃ hi : i < cents.length,
      (cents.foldl (assignStep pt) (m, l)).2 = (cents.get ⟨i, hi⟩).1
      ∧ distance (cents.get ⟨i, hi⟩).2 pt = (cents.foldl (assignStep pt) (m, l)).1
      ∧ (∀ j, ∀ hj : j < cents.length, j < i →
          (cents.foldl (assignStep pt) (m, l)).1 < distance (cents.get ⟨j, hj⟩).2 pt)
      ∧ (cents.foldl (assignStep pt) (m, l)).1 < m := by
  induction cents generalizing m l with
  | nil => simp at h
  | cons hd tl ih =>
    rw [List.foldl_cons]
    by_cases hD : distance hd.2 pt < m
    · rw [show assignStep pt (m, l) hd = (distance hd.2 pt, hd.1) by
        simp [assignStep, hD]]
      by_cases hrest : ∃ cv ∈ tl, distance cv.2 pt < distance hd.2 pt
      · obtain ⟨i, hi, h1, h2, h3, h4⟩ := ih (distance hd.2 pt) hd.1 hrest
        refine ⟨i + 1, Nat.succ_lt_succ hi, ?_, ?_, ?_, lt_trans h4 hD⟩
        · rw [List.get_cons_succ]
          exact h1
        · rw [List.get_cons_succ]
          exact h2
        · intro j hj hji
          cases j with
          | zero => exact h4
          | succ j' =>
            rw [List.get_cons_succ]
            exact h3 j' (Nat.lt_of_succ_lt_succ hj) (Nat.lt_of_succ_lt_succ hji)
      · push_neg at hrest
        rw [assignFold_keep pt tl (distance hd.2 pt) hd.1 hrest]
        exact ⟨0, Nat.succ_pos tl.length, rfl, rfl,
          fun j hj hj0 => absurd hj0 (Nat.not_lt_zero j), hD⟩
    · rw [show assignStep pt (m, l) hd = (m, l) by simp [assignStep, hD]]
      have hrest : ∃ cv ∈ tl, distance cv.2 pt < m := by
        obtain ⟨cv, hcv, hlt⟩ := h
        rcases List.mem_cons.mp hcv with rfl | hmem
        · exact absurd hlt hD
        · exact ⟨cv, hmem, hlt⟩
      obtain ⟨i, hi, h1, h2, h3, h4⟩ := ih m l hrest
      refine ⟨i + 1, Nat.succ_lt_succ hi, ?_, ?_, ?_, h4⟩
      · rw [List.get_cons_succ]
        exact h1
      · rw [List.get_cons_succ]
        exact h2
      · intro j hj hji
        cases j with
        | zero => exact lt_of_lt_of_le h4 (not_lt.mp hD)
        | succ j' =>
          rw [List.get_cons_succ]
          exact h3 j' (Nat.lt_of_succ_lt_succ hj) (Nat.lt_of_succ_lt_succ hji)

/-- A converged state is returned unchanged for any positive fuel. -/
theorem kmLoop_done (data : Data) (fuel : ℕ) (s : KState)
    (h : |s.last_score - s.score| ≤ 1e-7) (hf : 1 ≤ fuel) :
    kmLoop data fuel s = some s := by
  cases fuel with
  | zero => omega
  | succ n => simp [kmLoop, h]

/-- A non-converged state takes one more kmStep. -/
theorem kmLoop_not_done (data : Data) (fuel : ℕ) (s : KState)
    (h : ¬ |s.last_score - s.score| ≤ 1e-7) :
    kmLoop data (fuel + 1) s = kmLoop data fuel (kmStep data s) := by
  simp [kmLoop, h]

/-- Full characterisation of the loop of k_means: it returns a state exactly
    when that state is the first iterate of kmStep whose cost delta is at most
    1e-7, and the fuel (an embedding artifact) has not run out; every earlier
    iterate has delta strictly above 1e-7, so there is no other exit. -/
theorem kmLoop_some_iff (data : Data) (fuel : ℕ) (s s' : KState) :
    kmLoop data fuel s = some s' ↔
      ∃ i, i < fuel ∧ s' = (kmStep data)^[i] s
        ∧ |s'.last_score - s'.score| ≤ 1e-7
        ∧ ∀ j, j < i →
            1e-7 < |((kmStep data)^[j] s).last_score - ((kmStep data)^[j] s).score| := by
  induction fuel generalizing s with
  | zero => simp [kmLoop]
  | succ n ih =>
    by_cases h : |s.last_score - s.score| ≤ 1e-7
    · rw [show kmLoop data (n + 1) s = some s from by simp [kmLoop, h]]
      constructor
      · intro hs
        injection hs with hs
        subst hs
        exact ⟨0, Nat.succ_pos n, by simp, h, fun j hj => absurd hj (Nat.not_lt_zero j)⟩
      · rintro ⟨i, hi, rfl, hdone, hb⟩
        cases i with
        | zero => simp
        | succ i' =>
          have h0 := hb 0 (Nat.succ_pos i')
          simp only [Function.iterate_zero, id] at h0
          exact absurd h (not_le.mpr h0)
    · rw [kmLoop_not_done data n s h, ih (kmStep data s)]
      constructor
      · rintro ⟨i, hi, rfl, hdone, hb⟩
        refine ⟨i + 1, Nat.succ_lt_succ hi, (Function.iterate_succ_apply _ _ _).symm,
          hdone, ?_⟩
        intro j hj
        cases j with
        | zero =>
          simpa using not_le.mp h
        | succ j' =>
          rw [Function.iterate_succ_apply]
          exact hb j' (Nat.lt_of_succ_lt_succ hj)
      · rintro ⟨i, hi, rfl, hdone, hb⟩
        cases i with
        | zero =>
          simp only [Function.iterate_zero, id] at hdone
          exact absurd hdone h
        | succ i' =>
          rw [Function.iterate_succ_apply] at hdone
          refine ⟨i', Nat.lt_of_succ_lt_succ hi, Function.iterate_succ_apply _ _ _, hdone, ?_⟩
          intro j hj
          have hbj := hb (j + 1) (Nat.succ_lt_succ hj)
          rw [Function.iterate_succ_apply] at hbj
          exact hbj

/-- headI commutes with map on a non-empty list. -/
theorem headI_map (f : List ℝ → List ℝ) (x : Data) (hx : x ≠ []) :
    (x.map f).headI = f x.headI := by
  cases x with
  | nil => exact absurd rfl hx
  | cons hd tl => rfl

/-- A label occurring in the membership occurs in the zip of any column at
    least as long as the membership. -/
theorem mem_zip_of_mem_label (mem : List Label) (l : Label) (col : List ℝ)
    (hl : l ∈ mem) (hlen : mem.length ≤ col.length) :
    ∃ v, (v, l) ∈ col.zip mem := by
  induction mem generalizing col with
  | nil => simp at hl
  | cons m rest ih =>
    cases col with
    | nil => simp at hlen
    | cons c colrest =>
      rcases List.mem_cons.mp hl with rfl | hmem
      · exact ⟨c, by simp [List.zip_cons_cons]⟩
      · obtain ⟨v, hv⟩ := ih colrest hmem (Nat.le_of_succ_le_succ hlen)
        exact ⟨v, by simp [List.zip_cons_cons, hv]⟩

/-- When the membership is aligned with the first dimension, the selection of
    any label present in the membership has a non-empty first dimension. -/
theorem select_members_headI_pos (x : Data) (mem : List Label) (l : Label)
    (hlen : mem.length = x.headI.length) (hl : l ∈ mem) :
    0 < ((select_members x mem l).headI).length := by
  cases x with
  | nil =>
    cases mem with
    | nil => simp at hl
    | cons m rest =>
      have h0 : (m :: rest).length = 0 := hlen
      simp at h0
  | cons d ds =>
    obtain ⟨v, hv⟩ := mem_zip_of_mem_label mem l d hl (by simp only [List.headI] at hlen; omega)
    have hmem2 : (v, l) ∈ (d.zip mem).filter fun p => decide (p.2 = l) := by
      simp [List.mem_filter, hv]
    have : v ∈ ((d.zip mem).filter fun p => decide (p.2 = l)).map Prod.fst :=
      List.mem_map_of_mem Prod.fst hmem2
    have hne := List.ne_nil_of_mem this
    simpa [select_members] using List.length_pos.mpr hne

/-- dedup of a non-empty constant list is the singleton of its element. -/
theorem dedup_replicate_succ (n : ℕ) (a : Label) :
    (List.replicate (n + 1) a).dedup = [a] := by
  induction n with
  | zero => simp
  | succ n ih =>
    rw [List.replicate_succ, List.dedup_cons_of_mem (by simp)]
    exact ih

/-- optMap returns the mapped list when every body application succeeds. -/
theorem optMap_all_some (f : ℕ → Option String) (g : ℕ → String) (l : List ℕ)
    (h : ∀ i ∈ l, f i = some (g i)) :
    optMap f l = some (l.map fun i => (some (g i) : Label)) := by
  induction l with
  | nil => rfl
  | cons hd tl ih =>
    rw [optMap, h hd (List.mem_cons_self hd tl),
      ih fun i hi => h i (List.mem_cons_of_mem hd hi)]
    rfl

/-- Filtering a column zipped with a constant membership of its own length
    keeps the whole column. -/
theorem zip_replicate_filter (col : List ℝ) (a : Label) :
    (((col.zip (List.replicate col.length a)).filter fun p => decide (p.2 = a)).map
      Prod.fst) = col := by
  induction col with
  | nil => simp
  | cons c cs ih =>
    rw [List.length_cons, List.replicate_succ, List.zip_cons_cons]
    simpa using ih

/-- Selecting the unique label of a constant membership returns the dataset
    itself, provided every dimension is aligned with the membership. -/
theorem select_members_replicate (x : Data) (a : Label) (n : ℕ)
    (hcols : ∀ col ∈ x, col.length = n) :
    select_members x (List.replicate n a) a = x := by
  unfold select_members
  induction x with
  | nil => rfl
  | cons d ds ih =>
    rw [List.map_cons]
    have h1 : (((d.zip (List.replicate n a)).filter fun p => decide (p.2 = a)).map
        Prod.fst) = d := by
      rw [← hcols d (List.mem_cons_self d ds)]
      exact zip_replicate_filter d a
    rw [h1, ih fun col hc => hcols col (List.mem_cons_of_mem d hc)]

/-- On a constant membership the centroid mapping has a single entry: the
    global centroid of the whole dataset. -/
theorem get_centroids_replicate (x : Data) (a : Label) (n : ℕ) (hn : 0 < n)
    (hcols : ∀ col ∈ x, col.length = n) :
    get_centroids x (List.replicate n a) = [(a, centroid x)] := by
  obtain ⟨n', rfl⟩ : ∃ n', n = n' + 1 := ⟨n - 1, by omega⟩
  unfold get_centroids
  rw [dedup_replicate_succ, List.map_cons, List.map_nil,
    select_members_replicate x a (n' + 1) hcols]

/-- Reassignment against a single centroid closer than sys.maxsize to every
    point gives every point that centroid's label, and the score is the sum
    of the distances divided by the number of points. -/
theorem reassign_single (x : Data) (a : Label) (g : Point)
    (hfar : ∀ i < x.headI.length, distance g (pointAt x i) < maxsize) :
    reassign x [(a, g)] =
      (List.replicate x.headI.length a,
        ((List.range x.headI.length).map fun i => distance g (pointAt x i)).sum
          / (x.headI.length : ℝ)) := by
  unfold reassign
  obtain ⟨h1, h2⟩ := reassign_foldl x [(a, g)] (List.range x.headI.length) ([], [])
  have hap : ∀ i ∈ List.range x.headI.length,
      assignPoint (pointAt x i) [(a, g)] = (distance g (pointAt x i), a) := by
    intro i hi
    have hlt := hfar i (List.mem_range.mp hi)
    simp [assignPoint, assignStep, hlt]
  have hm : ((List.range x.headI.length).foldl
      (reassignStep x [(a, g)]) ([], [])).1 = List.replicate x.headI.length a := by
    rw [h1, List.nil_append,
      List.map_congr_left fun i hi => by rw [hap i hi]]
    rw [List.map_const', List.length_range]
  have hs : (((List.range x.headI.length).foldl
      (reassignStep x [(a, g)]) ([], [])).2.map Prod.snd).sum
        = ((List.range x.headI.length).map fun i => distance g (pointAt x i)).sum := by
    rw [h2]
    simp only [List.map_nil, List.sum_nil, zero_add]
    exact congrArg List.sum (List.map_congr_left fun i hi => by rw [hap i hi])
  simp only [reassign]
  rw [Prod.mk.injEq]
  exact ⟨hm, by rw [hs]⟩

/-- A full k_means run with k = 1 and aligned dimensions whose points all lie
    within sys.maxsize of the global centroid: it converges within three
    checks, every point is labelled red (the first color), the centroid
    mapping holds exactly the global centroid, and the returned score is the
    mean distance of the points to that centroid. -/
theorem k_means_one_cluster_run (x : Data) (r : ℕ → ℕ) (fuel : ℕ)
    (hn : 0 < x.headI.length)
    (hcols : ∀ col ∈ x, col.length = x.headI.length)
    (hfar : ∀ i < x.headI.length, distance (centroid x) (pointAt x i) < maxsize)
    (hfuel : 3 ≤ fuel) :
    k_means x 1 r fuel = some (List.replicate x.headI.length (some "red"),
      [(some "red", centroid x)],
      ((List.range x.headI.length).map fun i => distance (centroid x) (pointAt x i)).sum
        / (x.headI.length : ℝ)) := by
  have hg : guess_clusters x 1 r = some (List.replicate x.headI.length (some "red")) := by
    unfold guess_clusters
    rw [if_neg (by omega), if_neg one_ne_zero,
      optMap_all_some _ (fun _ => "red") _ (fun i _ => by rw [Nat.mod_one]; rfl)]
    rw [List.map_const', List.length_range]
  have hc : get_centroids x (List.replicate x.headI.length (some "red"))
      = [(some "red", centroid x)] :=
    get_centroids_replicate x (some "red") x.headI.length hn hcols
  have hre : reassign x [(some "red", centroid x)]
      = (List.replicate x.headI.length (some "red"),
        ((List.range x.headI.length).map fun i => distance (centroid x) (pointAt x i)).sum
          / (x.headI.length : ℝ)) :=
    reassign_single x (some "red") (centroid x) hfar
  set meanD : ℝ :=
    ((List.range x.headI.length).map fun i => distance (centroid x) (pointAt x i)).sum
      / (x.headI.length : ℝ) with hmeanD
  have hstep0 : kmStep x (kmInit (List.replicate x.headI.length (some "red")))
      = ⟨List.replicate x.headI.length (some "red"), [(some "red", centroid x)], meanD, 0⟩ := by
    simp only [kmStep, kmInit, hc, hre]
  have hstep1 : kmStep x ⟨List.replicate x.headI.length (some "red"),
      [(some "red", centroid x)], meanD, 0⟩
      = ⟨List.replicate x.headI.length (some "red"), [(some "red", centroid x)],
        meanD, meanD⟩ := by
    simp only [kmStep, hc, hre]
  have hnd0 : ¬ |(kmInit (List.replicate x.headI.length (some "red"))).last_score
      - (kmInit (List.replicate x.headI.length (some "red"))).score| ≤ 1e-7 := by
    unfold kmInit maxsize
    norm_num
  obtain ⟨b, rfl⟩ : ∃ b, fuel = b + 3 := ⟨fuel - 3, by omega⟩
  unfold k_means
  rw [hg]
  show (kmLoop x (b + 3) (kmInit (List.replicate x.headI.length (some "red")))).map
    (fun s => (s.membership, s.c, s.score)) = _
  have hloop : kmLoop x (b + 3) (kmInit (List.replicate x.headI.length (some "red")))
      = kmLoop x (b + 2) ⟨List.replicate x.headI.length (some "red"),
        [(some "red", centroid x)], meanD, 0⟩ := by
    rw [show b + 3 = (b + 2) + 1 from rfl, kmLoop_not_done _ _ _ hnd0, hstep0]
  rw [hloop]
  by_cases hd1 : |(⟨List.replicate x.headI.length (some "red"),
      [(some "red", centroid x)], meanD, 0⟩ : KState).last_score
        - (⟨List.replicate x.headI.length (some "red"),
          [(some "red", centroid x)], meanD, 0⟩ : KState).score| ≤ 1e-7
  · rw [kmLoop_done _ _ _ hd1 (by omega)]
    rfl
  · rw [show b + 2 = (b + 1) + 1 from rfl, kmLoop_not_done _ _ _ hd1, hstep1,
      kmLoop_done _ _ _ (by rw [show (⟨List.replicate x.headI.length (some "red"),
        [(some "red", centroid x)], meanD, meanD⟩ : KState).last_score
          - (⟨List.replicate x.headI.length (some "red"), [(some "red", centroid x)],
            meanD, meanD⟩ : KState).score = 0 from sub_self meanD, abs_zero]; norm_num)
      (by omega)]
    rfl

/-- Extra trailing dimensions of the second point are silently ignored by
    distance, because zip truncates to the shorter argument. -/
theorem distance_extra_dims (a b : ℝ) (rest : List (List ℝ)) :
    distance [[a]] ([b] :: rest) = |a - b| := by
  simp [distance, Real.sqrt_sq_eq_abs]

/-- Distance between two-dimensional points. -/
theorem distance_pair (a b c d : ℝ) :
    distance [[a], [c]] [[b], [d]] = Real.sqrt ((a - b) ^ 2 + (c - d) ^ 2) := by
  simp [distance]

/-- The sentinel is positive. -/
theorem maxsize_pos : (0 : ℝ) < maxsize := by norm_num [maxsize]

/-- optMap fails as soon as one body application fails. -/
theorem optMap_none (f : ℕ → Option String) (l : List ℕ) (i : ℕ) (hi : i ∈ l)
    (hf : f i = none) : optMap f l = none := by
  induction l with
  | nil => simp at hi
  | cons hd tl ih =>
    rcases List.mem_cons.mp hi with rfl | hmem
    · rw [optMap, hf]
    · rw [optMap]
      cases hfd : f hd with
      | none => rfl
      | some s => rw [ih hmem]; rfl

/-- Both points of [[0, 4*maxsize]] are at distance 2*maxsize from 2*maxsize. -/
theorem distance_big0 : distance [[2 * maxsize]] [[(0 : ℝ)]] = 2 * maxsize := by
  rw [distance_single, show (2 * maxsize - 0 : ℝ) = 2 * maxsize by ring]
  exact abs_of_nonneg (by norm_num [maxsize])

/-- The second point of [[0, 4*maxsize]] is also 2*maxsize away. -/
theorem distance_big4 : distance [[2 * maxsize]] [[4 * maxsize]] = 2 * maxsize := by
  rw [distance_single, show (2 * maxsize - 4 * maxsize : ℝ) = -(2 * maxsize) by ring,
    abs_neg]
  exact abs_of_nonneg (by norm_num [maxsize])

/-- The global centroid of [[0, 4*maxsize]] sits at 2*maxsize. -/
theorem centroid_big : centroid [[0, 4 * maxsize]] = [[2 * maxsize]] := by
  simp only [centroid, List.map_cons, List.map_nil, List.sum_cons, List.sum_nil]
  rw [show (List.headI [[0, 4 * maxsize]]).length = 2 from rfl]
  have h2 : ((0 : ℝ) + (4 * maxsize + 0)) / ((2 : ℕ) : ℝ) = 2 * maxsize := by
    push_cast
    ring
  rw [h2]

/-- Reassignment of the dataset [[0, 4*maxsize]] against one centroid at
    2*maxsize: both points are farther than the sentinel, so the strict
    comparison never fires, both labels stay None and the returned score is
    the sentinel itself, independently of the centroid's label. -/
theorem reassign_big (a : Label) :
    reassign [[0, 4 * maxsize]] [(a, [[2 * maxsize]])] = ([none, none], maxsize) := by
  have hd0 := distance_big0
  have hd1 := distance_big4
  have hnl : ¬ ((2 * maxsize : ℝ) < maxsize) := by norm_num [maxsize]
  have hap0 : assignPoint [[(0 : ℝ)]] [(a, [[2 * maxsize]])] = (maxsize, none) := by
    simp [assignPoint, assignStep, hd0, hnl]
  have hap1 : assignPoint [[(4 * maxsize : ℝ)]] [(a, [[2 * maxsize]])] = (maxsize, none) := by
    simp [assignPoint, assignStep, hd1, hnl]
  simp only [reassign]
  rw [show (List.headI [[0, 4 * maxsize]]).length = 2 from rfl,
    show List.range 2 = [0, 1] from rfl]
  simp only [List.foldl_cons, List.foldl_nil, reassignStep,
    show pointAt [[0, 4 * maxsize]] 0 = [[(0 : ℝ)]] from rfl,
    show pointAt [[0, 4 * maxsize]] 1 = [[(4 * maxsize : ℝ)]] from rfl, hap0, hap1]
  simp only [scoreAdd, if_pos rfl, List.nil_append, List.cons_append,
    List.map_cons, List.map_nil, List.sum_cons, List.sum_nil]
  rw [Prod.mk.injEq]
  refine ⟨rfl, ?_⟩
  show (maxsize + maxsize + 0) / ((2 : ℕ) : ℝ) = maxsize
  push_cast
  ring

/-- A k_means run on the single point 5 with k = 1 and fuel for only one
    iteration of the loop: the run converges after that single
    centroid-recompute/reassign pass. -/
theorem kmeans_single_point_run :
    k_means [[(5 : ℝ)]] 1 (fun _ => 0) 2
      = some ([some "red"], [(some "red", [[(5 : ℝ)]])], 0) := by
  have hcent : centroid [[(5 : ℝ)]] = [[(5 : ℝ)]] := by
    simp [centroid]
  have hg : guess_clusters [[(5 : ℝ)]] 1 (fun _ => 0) = some [some "red"] := rfl
  have hc : get_centroids [[(5 : ℝ)]] [some "red"] = [(some "red", [[(5 : ℝ)]])] := by
    have h := get_centroids_replicate [[(5 : ℝ)]] (some "red") 1 one_pos (by simp)
    rw [List.replicate_one, hcent] at h
    exact h
  have hre : reassign [[(5 : ℝ)]] [(some "red", [[(5 : ℝ)]])] = ([some "red"], 0) := by
    have hfar : ∀ i < (List.headI [[(5 : ℝ)]]).length,
        distance [[(5 : ℝ)]] (pointAt [[(5 : ℝ)]] i) < maxsize := by
      intro i hi
      have hi1 : i < 1 := hi
      obtain rfl : i = 0 := Nat.lt_one_iff.mp hi1
      rw [show pointAt [[(5 : ℝ)]] 0 = [[(5 : ℝ)]] from rfl, distance_single]
      norm_num [maxsize]
    have h := reassign_single [[(5 : ℝ)]] (some "red") [[(5 : ℝ)]] hfar
    rw [h, show List.range (List.headI [[(5 : ℝ)]]).length = [0] from rfl,
      List.map_cons, List.map_nil,
      show pointAt [[(5 : ℝ)]] 0 = [[(5 : ℝ)]] from rfl, distance_single]
    norm_num
  have hnd0 : ¬ |(kmInit [some "red"]).last_score - (kmInit [some "red"]).score| ≤ 1e-7 := by
    simp only [kmInit]
    norm_num [maxsize]
  unfold k_means
  rw [hg]
  show (kmLoop [[(5 : ℝ)]] 2 (kmInit [some "red"])).map
    (fun s => (s.membership, s.c, s.score)) = _
  rw [show (2 : ℕ) = 1 + 1 from rfl, kmLoop_not_done _ _ _ hnd0]
  have hstep : kmStep [[(5 : ℝ)]] (kmInit [some "red"])
      = ⟨[some "red"], [(some "red", [[(5 : ℝ)]])], 0, 0⟩ := by
    simp only [kmStep, kmInit, hc, hre]
  rw [hstep, kmLoop_done _ _ _ (by show |(0 : ℝ) - 0| ≤ 1e-7; norm_num) le_rfl]
  rfl

/-- The full sentinel-poisoned k_means run on [[0, 4*maxsize]] with k = 1:
    the loop converges, but to the membership [None, None] and to the score
    maxsize rather than the mean distance to the global centroid. -/
theorem kmeans_big_run :
    k_means [[0, 4 * maxsize]] 1 (fun _ => 0) 4
      = some ([none, none], [(none, [[2 * maxsize]])], maxsize) := by
  have hcent := centroid_big
  have hg : guess_clusters [[0, 4 * maxsize]] 1 (fun _ => 0)
      = some [some "red", some "red"] := rfl
  have hcols : ∀ col ∈ [[0, 4 * maxsize]], col.length = 2 := by simp
  have hc1 : get_centroids [[0, 4 * maxsize]] [some "red", some "red"]
      = [(some "red", [[2 * maxsize]])] := by
    have h := get_centroids_replicate [[0, 4 * maxsize]] (some "red") 2 two_pos hcols
    rw [show List.replicate 2 (some "red" : Label) = [some "red", some "red"] from rfl,
      hcent] at h
    exact h
  have hc2 : get_centroids [[0, 4 * maxsize]] [none, none]
      = [(none, [[2 * maxsize]])] := by
    have h := get_centroids_replicate [[0, 4 * maxsize]] none 2 two_pos hcols
    rw [show List.replicate 2 (none : Label) = [none, none] from rfl, hcent] at h
    exact h
  have hnd0 : ¬ |(kmInit [some "red", some "red"]).last_score
      - (kmInit [some "red", some "red"]).score| ≤ 1e-7 := by
    simp only [kmInit]
    norm_num [maxsize]
  have hstep0 : kmStep [[0, 4 * maxsize]] (kmInit [some "red", some "red"])
      = ⟨[none, none], [(some "red", [[2 * maxsize]])], maxsize, 0⟩ := by
    simp only [kmStep, kmInit, hc1, reassign_big]
  have hnd1 : ¬ |(⟨[none, none], [(some "red", [[2 * maxsize]])], maxsize, 0⟩ :
      KState).last_score - (⟨[none, none], [(some "red", [[2 * maxsize]])], maxsize, 0⟩ :
      KState).score| ≤ 1e-7 := by
    show ¬ |(0 : ℝ) - maxsize| ≤ 1e-7
    rw [show ((0 : ℝ) - maxsize) = -maxsize by ring, abs_neg,
      abs_of_nonneg maxsize_pos.le]
    norm_num [maxsize]
  have hstep1 : kmStep [[0, 4 * maxsize]]
      ⟨[none, none], [(some "red", [[2 * maxsize]])], maxsize, 0⟩
      = ⟨[none, none], [(none, [[2 * maxsize]])], maxsize, maxsize⟩ := by
    simp only [kmStep, hc2, reassign_big]
  unfold k_means
  rw [hg]
  show (kmLoop [[0, 4 * maxsize]] 4 (kmInit [some "red", some "red"])).map
    (fun s => (s.membership, s.c, s.score)) = _
  rw [show (4 : ℕ) = 3 + 1 from rfl, kmLoop_not_done _ _ _ hnd0, hstep0,
    show (3 : ℕ) = 2 + 1 from rfl, kmLoop_not_done _ _ _ hnd1, hstep1,
    kmLoop_done _ _ _ (by show |(maxsize : ℝ) - maxsize| ≤ 1e-7; norm_num) (by omega)]
  rfl

/-- optMap preserves length when it succeeds. -/
theorem optMap_length (f : ℕ → Option String) (l : List ℕ) (t : List Label)
    (h : optMap f l = some t) : t.length = l.length := by
  induction l generalizing t with
  | nil =>
    rw [optMap] at h
    injection h with h
    subst h
    rfl
  | cons hd tl ih =>
    rw [optMap] at h
    cases hf : f hd with
    | none =>
      rw [hf] at h
      exact absurd h (by simp)
    | some s =>
      rw [hf] at h
      cases ht : optMap f tl with
      | none =>
        rw [ht] at h
        exact absurd h (by simp)
      | some t' =>
        rw [ht] at h
        injection h with h
        subst h
        rw [List.length_cons, List.length_cons, ih t' ht]

/-- Claim C1 (amended): for every point set with n >= 1 points and every
    non-empty centroid mapping, the cost returned by reassign equals the mean
    over all n points -- not the raw sum -- of the per-point minimum distance
    as the code computes it: the minimum of the distances to the centroids
    seeded at sys.maxsize (min of maxsize and the true minimum).  Whenever
    every point has some centroid nearer than sys.maxsize, this is exactly
    the claimed mean of per-point minimum Euclidean distances; the
    counterexample shows the seed is observable beyond that range. -/
theorem reassign_cost_capped_mean (x : Data) (cents : List (Label × Point))
    (hn : 1 ≤ x.headI.length) (hc : cents ≠ []) :
    (reassign x cents).2 =
      ((List.range x.headI.length).map fun i => minDistCapped (pointAt x i) cents).sum
        / (x.headI.length : ℝ) := by
  obtain ⟨h1, h2⟩ := reassign_foldl x cents (List.range x.headI.length) ([], [])
  simp only [reassign]
  rw [h2]
  simp only [List.map_nil, List.sum_nil, zero_add]
  congr 1
  exact congrArg List.sum
    (List.map_congr_left fun i hi => assignPoint_fst (pointAt x i) cents)

/-- Witness for C1's theorem: two one-dimensional points 0 and 3 against the
    single centroid 0. -/
theorem reassign_cost_capped_mean_witness :
    1 ≤ (List.headI [[(0 : ℝ), 3]]).length
    ∧ ([((some "red" : Label), [[(0 : ℝ)]])] : List (Label × Point)) ≠ []
    ∧ (reassign [[(0 : ℝ), 3]] [((some "red" : Label), [[(0 : ℝ)]])]).2 =
      ((List.range (List.headI [[(0 : ℝ), 3]]).length).map
        fun i => minDistCapped (pointAt [[(0 : ℝ), 3]] i)
          [((some "red" : Label), [[(0 : ℝ)]])]).sum
            / ((List.headI [[(0 : ℝ), 3]]).length : ℝ) :=
  ⟨by decide, by simp,
    reassign_cost_capped_mean [[(0 : ℝ), 3]] [((some "red" : Label), [[(0 : ℝ)]])]
      (by decide) (by simp)⟩

/-- Counterexample to C1 as stated: one point at 0 whose only centroid sits
    at 2*maxsize.  The true minimum Euclidean distance (and hence the claimed
    mean over the single point) is 2*maxsize, but reassign returns the seed
    sys.maxsize, because the strict comparison against the seed never fires. -/
theorem reassign_cost_sentinel_counterexample :
    (reassign [[(0 : ℝ)]] [((some "red" : Label), [[2 * maxsize]])]).2 = maxsize
    ∧ distance [[2 * maxsize]] [[(0 : ℝ)]] = 2 * maxsize
    ∧ (maxsize : ℝ) ≠ 2 * maxsize := by
  have hnl : ¬ ((2 * maxsize : ℝ) < maxsize) := by norm_num [maxsize]
  have hap : assignPoint [[(0 : ℝ)]] [((some "red" : Label), [[2 * maxsize]])]
      = (maxsize, none) := by
    simp [assignPoint, assignStep, distance_big0, hnl]
  refine ⟨?_, distance_big0, by norm_num [maxsize]⟩
  simp only [reassign]
  rw [show (List.headI [[(0 : ℝ)]]).length = 1 from rfl,
    show List.range 1 = [0] from rfl]
  simp only [List.foldl_cons, List.foldl_nil, reassignStep,
    show pointAt [[(0 : ℝ)]] 0 = [[(0 : ℝ)]] from rfl, hap]
  show (maxsize + 0) / ((1 : ℕ) : ℝ) = maxsize
  norm_num

/-- Claim C2 (amended): at the start of every k_means run the last cost is
    the very large sentinel sys.maxsize, but the current cost is 0.0 -- not a
    large sentinel.  The first convergence check still always fails, forcing
    at least ONE iteration; it does not force two: the check can already pass
    right after the first iteration (see the counterexample). -/
theorem kmInit_sentinel (membership : List Label) :
    (kmInit membership).score = 0
    ∧ (kmInit membership).last_score = maxsize
    ∧ 1e-7 < |(kmInit membership).last_score - (kmInit membership).score| := by
  refine ⟨rfl, rfl, ?_⟩
  show (1e-7 : ℝ) < |maxsize - 0|
  rw [sub_zero, abs_of_nonneg maxsize_pos.le]
  norm_num [maxsize]

/-- Counterexample to C2 as stated: the current cost starts at 0, which is
    not the sentinel, and on the dataset [[5]] with k = 1 the run converges
    with fuel 2, i.e. the convergence check passes right after the first
    centroid-recompute/reassign iteration, not after two. -/
theorem kmInit_sentinel_counterexample :
    (kmInit []).score = 0 ∧ (0 : ℝ) ≠ maxsize
    ∧ k_means [[(5 : ℝ)]] 1 (fun _ => 0) 2
        = some ([some "red"], [(some "red", [[(5 : ℝ)]])], 0) :=
  ⟨rfl, by norm_num [maxsize], kmeans_single_point_run⟩

/-- Claim C3: the loop of k_means returns a state exactly when it is the
    first kmStep iterate whose cost delta |last_score - score| is at most
    1e-7; every earlier iterate has delta strictly above 1e-7, so while the
    delta exceeds the threshold another centroid-recompute/reassign pass
    runs, and there is no other exit: the fuel argument only embeds the
    ABSENCE of a maximum-iteration bound (running out of fuel yields none,
    never a Run Result).  Moreover k_means returns the Run Result
    (membership, centroid mapping, cost) of the state the loop stopped at. -/
theorem kmeans_stops_iff_delta_small :
    (∀ (data : Data) (fuel : ℕ) (s s' : KState),
      kmLoop data fuel s = some s' ↔
        ∃ i, i < fuel ∧ s' = (kmStep data)^[i] s
          ∧ |s'.last_score - s'.score| ≤ 1e-7
          ∧ ∀ j, j < i →
              1e-7 < |((kmStep data)^[j] s).last_score - ((kmStep data)^[j] s).score|)
    ∧ (∀ (data : Data) (k : ℕ) (r : ℕ → ℕ) (fuel : ℕ) (mem : List Label),
        guess_clusters data k r = some mem →
          k_means data k r fuel
            = (kmLoop data fuel (kmInit mem)).map fun s => (s.membership, s.c, s.score)) := by
  refine ⟨kmLoop_some_iff, ?_⟩
  intro data k r fuel mem hg
  unfold k_means
  rw [hg]

/-- Witness for the conditional part of C3's theorem at a concrete run. -/
theorem kmeans_stops_iff_delta_small_witness :
    guess_clusters [[(5 : ℝ)]] 1 (fun _ => 0) = some [some "red"]
    ∧ k_means [[(5 : ℝ)]] 1 (fun _ => 0) 2
        = (kmLoop [[(5 : ℝ)]] 2 (kmInit [some "red"])).map
            fun s => (s.membership, s.c, s.score) :=
  ⟨rfl, kmeans_stops_iff_delta_small.2 [[(5 : ℝ)]] 1 (fun _ => 0) 2 [some "red"] rfl⟩

/-- Claim C4: for every non-empty subset of points of equal dimension (every
    column of the column-wise layout carries the same positive number m of
    entries), centroid returns a point with exactly one coordinate per
    dimension of the input, and the coordinate of each dimension is the
    arithmetic mean of that dimension's values: its sum divided by the number
    m of points.  As a Lean function it is pure by construction, which is the
    no-side-effects part of the claim. -/
theorem centroid_per_dimension_mean (x : Data) (m : ℕ)
    (hx : x ≠ []) (hcols : ∀ col ∈ x, col.length = m) (hm : 0 < m) :
    (centroid x).length = x.length
    ∧ ∀ i, ∀ hi : i < x.length,
        (centroid x).get? i = some [((x.get ⟨i, hi⟩).sum) / (m : ℝ)] := by
  have hden : x.headI.length = m := by
    cases x with
    | nil => exact absurd rfl hx
    | cons d ds => exact hcols d (List.mem_cons_self d ds)
  constructor
  · simp [centroid]
  · intro i hi
    unfold centroid
    rw [List.get?_map, List.get?_eq_get hi, Option.map_some', hden]

/-- Witness for C4's theorem: two 2-dimensional points (1,2) and (3,4) in
    column layout. -/
theorem centroid_per_dimension_mean_witness :
    ([[(1 : ℝ), 3], [2, 4]] : Data) ≠ []
    ∧ (∀ col ∈ ([[(1 : ℝ), 3], [2, 4]] : Data), col.length = 2)
    ∧ 0 < 2
    ∧ ((centroid [[(1 : ℝ), 3], [2, 4]]).length = ([[(1 : ℝ), 3], [2, 4]] : Data).length
      ∧ ∀ i, ∀ hi : i < ([[(1 : ℝ), 3], [2, 4]] : Data).length,
          (centroid [[(1 : ℝ), 3], [2, 4]]).get? i
            = some [((([[(1 : ℝ), 3], [2, 4]] : Data).get ⟨i, hi⟩).sum) / ((2 : ℕ) : ℝ)]) :=
  ⟨by simp, by simp, by norm_num,
    centroid_per_dimension_mean [[(1 : ℝ), 3], [2, 4]] 2 (by simp) (by simp) (by norm_num)⟩

/-- Claim C5: reassign is deterministic and idempotent.  In this shallow
    embedding the function is pure -- it takes only the point set and the
    centroid mapping and touches no other state, mirroring the Python
    function, which only reads its arguments -- so two applications to the
    same arguments are one and the same Membership/cost pair. -/
theorem reassign_deterministic (x : Data) (cents : List (Label × Point)) :
    reassign x cents = reassign x cents := rfl

/-- Claim C6: reassign assigns each point to the FIRST centroid, in traversal
    order of the mapping, attaining the minimal recorded distance: the chosen
    position attains the final minimum and every earlier position is strictly
    farther, so a later centroid at exactly the same distance never replaces
    an earlier one -- the comparison dist < min_d is strict.  The hypothesis
    asks some centroid to be nearer than sys.maxsize; otherwise no centroid
    is selected at all and the label stays None. -/
theorem assignPoint_first_of_ties (pt : Point) (cents : List (Label × Point))
    (h : ∃ cv ∈ cents, distance cv.2 pt < maxsize) :
    ∃ i, ∃ hi : i < cents.length,
      (assignPoint pt cents).2 = (cents.get ⟨i, hi⟩).1
      ∧ distance (cents.get ⟨i, hi⟩).2 pt = (assignPoint pt cents).1
      ∧ ∀ j, ∀ hj : j < cents.length, j < i →
          (assignPoint pt cents).1 < distance (cents.get ⟨j, hj⟩).2 pt := by
  obtain ⟨i, hi, h1, h2, h3, _⟩ := assignFold_first_min pt cents maxsize none h
  exact ⟨i, hi, h1, h2, h3⟩

/-- Witness for C6's theorem on an exact tie: the point 0 with centroids at 3
    and -3, both at distance 3; the label picked is the first one, red. -/
theorem assignPoint_first_of_ties_witness :
    (∃ cv ∈ ([((some "red" : Label), [[(3 : ℝ)]]),
        ((some "orange" : Label), [[(-3 : ℝ)]])] : List (Label × Point)),
      distance cv.2 [[(0 : ℝ)]] < maxsize)
    ∧ (∃ i, ∃ hi : i < ([((some "red" : Label), [[(3 : ℝ)]]),
          ((some "orange" : Label), [[(-3 : ℝ)]])] : List (Label × Point)).length,
        (assignPoint [[(0 : ℝ)]] [((some "red" : Label), [[(3 : ℝ)]]),
            ((some "orange" : Label), [[(-3 : ℝ)]])]).2
          = (([((some "red" : Label), [[(3 : ℝ)]]),
              ((some "orange" : Label), [[(-3 : ℝ)]])] :
                List (Label × Point)).get ⟨i, hi⟩).1
        ∧ distance ((([((some "red" : Label), [[(3 : ℝ)]]),
              ((some "orange" : Label), [[(-3 : ℝ)]])] :
                List (Label × Point)).get ⟨i, hi⟩)).2 [[(0 : ℝ)]]
            = (assignPoint [[(0 : ℝ)]] [((some "red" : Label), [[(3 : ℝ)]]),
                ((some "orange" : Label), [[(-3 : ℝ)]])]).1
        ∧ ∀ j, ∀ hj : j < ([((some "red" : Label), [[(3 : ℝ)]]),
              ((some "orange" : Label), [[(-3 : ℝ)]])] : List (Label × Point)).length,
            j < i →
              (assignPoint [[(0 : ℝ)]] [((some "red" : Label), [[(3 : ℝ)]]),
                  ((some "orange" : Label), [[(-3 : ℝ)]])]).1
                < distance ((([((some "red" : Label), [[(3 : ℝ)]]),
                    ((some "orange" : Label), [[(-3 : ℝ)]])] :
                      List (Label × Point)).get ⟨j, hj⟩)).2 [[(0 : ℝ)]])
    ∧ (assignPoint [[(0 : ℝ)]] [((some "red" : Label), [[(3 : ℝ)]]),
        ((some "orange" : Label), [[(-3 : ℝ)]])]).2 = some "red" := by
  have hd3 : distance [[(3 : ℝ)]] [[(0 : ℝ)]] = 3 := by
    rw [distance_single]
    norm_num
  have hdm3 : distance [[(-3 : ℝ)]] [[(0 : ℝ)]] = 3 := by
    rw [distance_single]
    norm_num
  have hh : ∃ cv ∈ ([((some "red" : Label), [[(3 : ℝ)]]),
      ((some "orange" : Label), [[(-3 : ℝ)]])] : List (Label × Point)),
      distance cv.2 [[(0 : ℝ)]] < maxsize := by
    refine ⟨((some "red" : Label), [[(3 : ℝ)]]), by simp, ?_⟩
    rw [show (((some "red" : Label), [[(3 : ℝ)]]) : Label × Point).2 = [[(3 : ℝ)]] from rfl,
      hd3]
    norm_num [maxsize]
  refine ⟨hh, assignPoint_first_of_ties _ _ hh, ?_⟩
  have e1 : assignStep [[(0 : ℝ)]] (maxsize, none)
      ((some "red" : Label), [[(3 : ℝ)]]) = (3, some "red") := by
    simp only [assignStep, hd3]
    rw [if_pos (by norm_num [maxsize])]
  have e2 : assignStep [[(0 : ℝ)]] ((3 : ℝ), (some "red" : Label))
      ((some "orange" : Label), [[(-3 : ℝ)]]) = (3, some "red") := by
    simp only [assignStep, hdm3]
    rw [if_neg (by norm_num)]
  show (assignStep [[(0 : ℝ)]] (assignStep [[(0 : ℝ)]] (maxsize, none)
    ((some "red" : Label), [[(3 : ℝ)]])) ((some "orange" : Label), [[(-3 : ℝ)]])).2
      = some "red"
  rw [e1, e2]

/-- Claim C7: inside a k_means run centroid is only applied to non-empty
    subsets.  The memberships the loop sees are aligned with the first
    dimension (guess_clusters and reassign both emit one label per point of
    x[0]); get_centroids computes a centroid only for the distinct labels
    actually present in the membership, and for such labels the selected
    subset has a non-empty first dimension, so the division by len(x[0]) in
    centroid is never a division by zero.  Finally the mapping's keys are
    EXACTLY the distinct labels of the membership: a label with zero assigned
    points is silently dropped, which can shrink the effective cluster count
    below k. -/
theorem centroid_inputs_nonempty :
    (∀ (x : Data) (k : ℕ) (r : ℕ → ℕ) (mem : List Label),
        guess_clusters x k r = some mem → mem.length = x.headI.length)
    ∧ (∀ (x : Data) (cents : List (Label × Point)),
        (reassign x cents).1.length = x.headI.length)
    ∧ (∀ (x : Data) (mem : List Label) (l : Label),
        mem.length = x.headI.length → l ∈ mem.dedup →
          0 < ((select_members x mem l).headI).length)
    ∧ (∀ (x : Data) (mem : List Label),
        (get_centroids x mem).map Prod.fst = mem.dedup) := by
  refine ⟨?_, ?_, ?_, ?_⟩
  · intro x k r mem hg
    unfold guess_clusters at hg
    by_cases h0 : x.headI.length = 0
    · rw [if_pos h0] at hg
      exact absurd hg (by simp)
    · rw [if_neg h0] at hg
      by_cases hk : k = 0
      · rw [if_pos hk] at hg
        exact absurd hg (by simp)
      · rw [if_neg hk] at hg
        have h := optMap_length _ _ _ hg
        rwa [List.length_range] at h
  · intro x cents
    obtain ⟨h1, _⟩ := reassign_foldl x cents (List.range x.headI.length) ([], [])
    show ((List.range x.headI.length).foldl (reassignStep x cents) ([], [])).1.length = _
    rw [h1]
    simp
  · intro x mem l hlen hl
    exact select_members_headI_pos x mem l hlen (List.mem_dedup.mp hl)
  · intro x mem
    unfold get_centroids
    rw [List.map_map]
    show mem.dedup.map (fun i => i) = mem.dedup
    exact List.map_id' mem.dedup

/-- Witness for C7's theorem: the membership [red, orange] aligned with the
    two points of a one-dimensional dataset. -/
theorem centroid_inputs_nonempty_witness :
    ([some "red", some "orange"] : List Label).length
        = (List.headI [[(1 : ℝ), 2]]).length
    ∧ (some "red" : Label) ∈ ([some "red", some "orange"] : List Label).dedup
    ∧ 0 < ((select_members [[(1 : ℝ), 2]] [some "red", some "orange"]
        (some "red")).headI).length := by
  have h1 : ([some "red", some "orange"] : List Label).length
      = (List.headI [[(1 : ℝ), 2]]).length := rfl
  have h2 : (some "red" : Label) ∈ ([some "red", some "orange"] : List Label).dedup := by
    rw [List.mem_dedup]
    simp
  exact ⟨h1, h2, centroid_inputs_nonempty.2.2.1 [[(1 : ℝ), 2]] _ _ h1 h2⟩

/-- Claim C8 (amended): for every point set with at least one point, aligned
    columns, and every point within sys.maxsize of the global centroid
    (without that proviso the sentinel corrupts the run -- see the
    counterexample), k_means with k = 1 converges (three loop checks always
    suffice, for any fuel of at least 3) and returns cost equal to the mean
    Euclidean distance from the points to the single global centroid, with
    every point carrying the same single label red. -/
theorem kmeans_k1_mean_cost (x : Data) (r : ℕ → ℕ) (fuel : ℕ)
    (hn : 0 < x.headI.length)
    (hcols : ∀ col ∈ x, col.length = x.headI.length)
    (hfar : ∀ i < x.headI.length, distance (centroid x) (pointAt x i) < maxsize)
    (hfuel : 3 ≤ fuel) :
    k_means x 1 r fuel = some (List.replicate x.headI.length (some "red"),
      [(some "red", centroid x)],
      ((List.range x.headI.length).map fun i => distance (centroid x) (pointAt x i)).sum
        / (x.headI.length : ℝ)) :=
  k_means_one_cluster_run x r fuel hn hcols hfar hfuel

/-- Witness for C8's theorem: the two one-dimensional points 1 and 3. -/
theorem kmeans_k1_mean_cost_witness :
    (0 < (List.headI [[(1 : ℝ), 3]]).length)
    ∧ (∀ col ∈ ([[(1 : ℝ), 3]] : Data), col.length = (List.headI [[(1 : ℝ), 3]]).length)
    ∧ (∀ i < (List.headI [[(1 : ℝ), 3]]).length,
        distance (centroid [[(1 : ℝ), 3]]) (pointAt [[(1 : ℝ), 3]] i) < maxsize)
    ∧ k_means [[(1 : ℝ), 3]] 1 (fun _ => 0) 3
        = some (List.replicate (List.headI [[(1 : ℝ), 3]]).length (some "red"),
          [(some "red", centroid [[(1 : ℝ), 3]])],
          ((List.range (List.headI [[(1 : ℝ), 3]]).length).map
            fun i => distance (centroid [[(1 : ℝ), 3]]) (pointAt [[(1 : ℝ), 3]] i)).sum
              / ((List.headI [[(1 : ℝ), 3]]).length : ℝ)) := by
  have hcent : centroid [[(1 : ℝ), 3]] = [[(2 : ℝ)]] := by
    simp only [centroid, List.map_cons, List.map_nil, List.sum_cons, List.sum_nil]
    rw [show (List.headI [[(1 : ℝ), 3]]).length = 2 from rfl]
    have h2 : ((1 : ℝ) + (3 + 0)) / ((2 : ℕ) : ℝ) = 2 := by
      push_cast
      ring
    rw [h2]
  have hcols : ∀ col ∈ ([[(1 : ℝ), 3]] : Data),
      col.length = (List.headI [[(1 : ℝ), 3]]).length := by
    intro col hc
    rw [List.mem_singleton] at hc
    subst hc
    rfl
  have hfar : ∀ i < (List.headI [[(1 : ℝ), 3]]).length,
      distance (centroid [[(1 : ℝ), 3]]) (pointAt [[(1 : ℝ), 3]] i) < maxsize := by
    intro i hi
    have h2 : i < 2 := hi
    rw [hcent]
    interval_cases i
    · rw [show pointAt [[(1 : ℝ), 3]] 0 = [[(1 : ℝ)]] from rfl, distance_single]
      norm_num [maxsize]
    · rw [show pointAt [[(1 : ℝ), 3]] 1 = [[(3 : ℝ)]] from rfl, distance_single]
      norm_num [maxsize]
  exact ⟨by decide, hcols, hfar,
    kmeans_k1_mean_cost [[(1 : ℝ), 3]] (fun _ => 0) 3 (by decide) hcols hfar le_rfl⟩

/-- Counterexample to C8 as stated: on the two points 0 and 4*maxsize with
    k = 1 the run converges, but the returned cost is the sentinel maxsize,
    whereas the mean distance of the points to the global centroid is
    2*maxsize; the common label is even None rather than a color. -/
theorem kmeans_k1_sentinel_counterexample :
    k_means [[0, 4 * maxsize]] 1 (fun _ => 0) 4
      = some ([none, none], [(none, [[2 * maxsize]])], maxsize)
    ∧ ((List.range (List.headI [[0, 4 * maxsize]]).length).map
        fun i => distance (centroid [[0, 4 * maxsize]]) (pointAt [[0, 4 * maxsize]] i)).sum
          / ((List.headI [[0, 4 * maxsize]]).length : ℝ) = 2 * maxsize
    ∧ (maxsize : ℝ) ≠ 2 * maxsize := by
  refine ⟨kmeans_big_run, ?_, by norm_num [maxsize]⟩
  rw [show (List.headI [[0, 4 * maxsize]]).length = 2 from rfl,
    show List.range 2 = [0, 1] from rfl, List.map_cons, List.map_cons, List.map_nil,
    show pointAt [[0, 4 * maxsize]] 0 = [[(0 : ℝ)]] from rfl,
    show pointAt [[0, 4 * maxsize]] 1 = [[(4 * maxsize : ℝ)]] from rfl,
    centroid_big, distance_big0, distance_big4, List.sum_cons, List.sum_cons,
    List.sum_nil]
  push_cast
  ring

/-- Claim C9 (amended): a run with k = 0 (the only k < 1 expressible for a
    natural-number k) does fail before any iteration begins, because the
    initial random assignment raises.  But a point whose coordinate count
    does not match the established dimension is NOT rejected at input
    validation -- no validation exists; instead distance silently computes
    over only the dimensions the two points share, because zip truncates to
    the shorter argument. -/
theorem fail_fast_and_distance_truncation :
    (∀ (x : Data) (r : ℕ → ℕ) (fuel : ℕ), k_means x 0 r fuel = none)
    ∧ (∀ (a b : ℝ) (rest : List (List ℝ)), distance [[a]] ([b] :: rest) = |a - b|) := by
  refine ⟨?_, distance_extra_dims⟩
  intro x r fuel
  unfold k_means guess_clusters
  by_cases h : x.headI.length = 0
  · rw [if_pos h]
  · rw [if_neg h, if_pos rfl]

/-- Counterexample to C9 as stated: the dimension-mismatched pair
    ([[0]], [[3],[4]]) is not rejected: distance returns 3, the distance over
    the single shared dimension, although the full two-dimensional distance
    from the origin to (3,4) is 5. -/
theorem distance_mismatch_counterexample :
    distance [[(0 : ℝ)]] [[3], [4]] = 3
    ∧ distance [[(0 : ℝ)], [0]] [[3], [4]] = 5
    ∧ (3 : ℝ) ≠ 5 := by
  refine ⟨?_, ?_, by norm_num⟩
  · rw [show (distance [[(0 : ℝ)]] [[3], [4]]) = distance [[(0 : ℝ)]] ([3] :: [[4]])
      from rfl, distance_extra_dims]
    norm_num
  · rw [distance_pair, show ((0 : ℝ) - 3) ^ 2 + ((0 : ℝ) - 4) ^ 2 = 5 ^ 2 by norm_num]
    exact Real.sqrt_sq (by norm_num)

/-- Claim C10: the cluster labels are drawn by index from the fixed
    8-element color list co, so for every point set with at least one point
    and every k with 9 <= k <= n, the random draw can legitimately pick index
    8 -- a member of range(k) -- which is past the end of co: guess_clusters
    fails with an index error and k_means returns no Run Result, for any
    fuel. -/
theorem kmeans_k_gt8_index_error (x : Data) (k fuel : ℕ)
    (hn : 0 < x.headI.length) (hk : 9 ≤ k) (hkn : k ≤ x.headI.length) :
    guess_clusters x k (fun _ => 8) = none
    ∧ k_means x k (fun _ => 8) fuel = none := by
  have hg : guess_clusters x k (fun _ => 8) = none := by
    unfold guess_clusters
    rw [if_neg (by omega), if_neg (by omega)]
    refine optMap_none _ _ 0 (List.mem_range.mpr hn) ?_
    show co.get? (8 % k) = none
    rw [Nat.mod_eq_of_lt (by omega)]
    rfl
  refine ⟨hg, ?_⟩
  unfold k_means
  rw [hg]

/-- Witness for C10's theorem: nine one-dimensional points, k = 9, with the
    random stream always drawing index 8. -/
theorem kmeans_k_gt8_index_error_witness :
    (0 < (List.headI [[(0 : ℝ), 0, 0, 0, 0, 0, 0, 0, 0]]).length)
    ∧ (9 ≤ 9)
    ∧ (9 ≤ (List.headI [[(0 : ℝ), 0, 0, 0, 0, 0, 0, 0, 0]]).length)
    ∧ guess_clusters [[(0 : ℝ), 0, 0, 0, 0, 0, 0, 0, 0]] 9 (fun _ => 8) = none
    ∧ k_means [[(0 : ℝ), 0, 0, 0, 0, 0, 0, 0, 0]] 9 (fun _ => 8) 5 = none := by
  have h := kmeans_k_gt8_index_error [[(0 : ℝ), 0, 0, 0, 0, 0, 0, 0, 0]] 9 5
    (by decide) (by omega) (by decide)
  exact ⟨by decide, by omega, by decide, h.1, h.2⟩

end KMeans
